import Mathlib

/-!
Verification of the mcp-gql GraphQL client core (`src/services/graphql-client.ts`,
`src/tools/query-graphql.ts`).

The TypeScript source is embedded shallowly:

* GraphQL documents are modelled as a closed AST (`Selection`, `Definition`,
  `Document`) mirroring the graphql-js node shapes the code inspects
  (`kind`, `selectionSet`, `name.value`); a `FragmentSpread` node carries no
  selection set, exactly as in graphql-js.
* The external graphql library functions (`parse`, `print`, `validate`,
  `buildClientSchema`, `printSchema`, `getIntrospectionQuery`), the network
  transport (`GraphQLClient.request`) and the clocks (`Date.now`, `new Date()`)
  are collaborators outside the repository; they are supplied through an
  environment record `GEnv`, with the outcome of the i-th network attempt given
  by `GEnv.request i`.
* JavaScript string builtins (`trim`, `toLowerCase`, `startsWith`) and object
  spread (`{...a, ...b}`) are modelled directly over character / association
  lists (`jsTrim`, `jsToLower`, `jsStartsWith`, `jsMerge`), with the ASCII
  semantics relevant to the embedded code.
* Node's `crypto.createHash('md5')` is implemented in full (RFC 1321) over
  UTF-8 byte lists, so `generateSchemaVersion` is the real hash function.
* Side effects are made observable: `executeQuery` returns, next to its
  `Except` result, the ordered list of `Event`s it performed (network attempts
  with the headers used, and backoff sleeps in milliseconds); `introspectSchema`
  additionally returns the updated client state.
-/

namespace Synaptra

/-! ## Headers and JavaScript object spread -/

/-- HTTP headers: a JavaScript `Record<string, string>` as an association list
in insertion order. -/
abbrev Headers := List (String × String)

/-- Key lookup in a JS record: the value of the first entry with exactly
(case-sensitively) the given key. -/
def lookupH (k : String) (h : Headers) : Option String :=
  (h.find? (fun p => p.1 == k)).map (fun p => p.2)

/-- JavaScript object spread `{...a, ...b}` (graphql-client.ts lines 120-124):
keys of `a` in order, each taking `b`'s value when `b` also has the key,
followed by the keys of `b` absent from `a`. -/
def jsMerge (a b : Headers) : Headers :=
  a.map (fun p => (p.1, (lookupH p.1 b).getD p.2)) ++
    b.filter (fun p => (lookupH p.1 a).isNone)

/-! ## GraphQL document AST

Shapes mirror graphql-js: a field has a name and an (optional, here possibly
empty) selection set; a fragment spread has only a name — no selection set;
an inline fragment has a selection set. A document is a list of operation and
fragment definitions. -/

inductive OpType where
  | query
  | mutation
  | subscription
deriving DecidableEq, Repr

/-- Operation string as exposed by graphql-js `operationDef.operation`. -/
def OpType.str : OpType → String
  | .query => "query"
  | .mutation => "mutation"
  | .subscription => "subscription"

inductive Selection where
  | field (name : String) (selections : List Selection)
  | fragmentSpread (name : String)
  | inlineFragment (selections : List Selection)

inductive Definition where
  | operation (op : OpType) (selections : List Selection)
  | fragment (name : String) (selections : List Selection)

structure Document where
  definitions : List Definition

/-! ## Query analysis (graphql-client.ts lines 210-295)

Each function embeds the corresponding private method of
`GraphQLClientService`. The JS `visit` closures use a mutable accumulator;
here the same traversals are written as structural recursions. -/

/-- Depth traversal (`calculateDepth`, lines 237-262): `visit` is invoked only
on `Field` selections (the guard `selection.kind === 'Field'` precedes every
recursive call), records `max` of the visited depth, and recurses into the
field's selection set at `depth + 1`. Non-field selections are skipped
entirely. -/
def depthSels : List Selection → Nat → Nat
  | [], _ => 0
  | .field _ sub :: rest, d => max (max d (depthSels sub (d + 1))) (depthSels rest d)
  | .fragmentSpread _ :: rest, d => depthSels rest d
  | .inlineFragment _ :: rest, d => depthSels rest d

/-- Embeds `calculateDepth` (lines 237-262): only `OperationDefinition`s are
traversed, top-level fields start at depth 1, `maxDepth` starts at 0. -/
def calculateDepth (doc : Document) : Nat :=
  doc.definitions.foldl
    (fun acc d =>
      match d with
      | .operation _ sels => max acc (depthSels sels 1)
      | .fragment _ _ => acc)
    0

/-- Complexity traversal (`calculateComplexity`, lines 215-235): `visit` counts
every `Field` node and recurses through any node that has a `selectionSet`
(fields and inline fragments; a `FragmentSpread` has none). -/
def complexitySels : List Selection → Nat
  | [] => 0
  | .field _ sub :: rest => (1 + complexitySels sub) + complexitySels rest
  | .inlineFragment sub :: rest => complexitySels sub + complexitySels rest
  | .fragmentSpread _ :: rest => complexitySels rest

/-- Embeds `calculateComplexity` (lines 215-235): sum over the
`OperationDefinition`s of the document. -/
def calculateComplexity (doc : Document) : Nat :=
  doc.definitions.foldl
    (fun acc d =>
      match d with
      | .operation _ sels => acc + complexitySels sels
      | .fragment _ _ => acc)
    0

/-- Field-name collection (`extractFields`, lines 264-283): `visit` pushes the
name of every `Field` node in depth-first order and recurses through any node
with a `selectionSet` (so inline-fragment contents are visited, fragment
spreads are not). -/
def fieldsSels : List Selection → List String
  | [] => []
  | .field n sub :: rest => (n :: fieldsSels sub) ++ fieldsSels rest
  | .inlineFragment sub :: rest => fieldsSels sub ++ fieldsSels rest
  | .fragmentSpread _ :: rest => fieldsSels rest

/-- JavaScript `[...new Set(xs)]`: de-duplication keeping the first occurrence
of each element, in insertion order. -/
def jsSetDedup (l : List String) : List String :=
  l.foldl (fun acc x => if x ∈ acc then acc else acc ++ [x]) []

/-- Embeds `extractFields` (lines 264-283): names collected from the
`OperationDefinition`s only (fragment definitions are never traversed), then
de-duplicated preserving insertion order. -/
def extractFields (doc : Document) : List String :=
  jsSetDedup
    (doc.definitions.foldl
      (fun acc d =>
        match d with
        | .operation _ sels => acc ++ fieldsSels sels
        | .fragment _ _ => acc)
      [])

/-- Embeds `extractFragments` (lines 285-295): names of the
`FragmentDefinition`s of the document, in order. -/
def extractFragments (doc : Document) : List String :=
  doc.definitions.foldl
    (fun acc d =>
      match d with
      | .operation _ _ => acc
      | .fragment n _ => acc ++ [n])
    []

/-- Embeds `getOperationType` (lines 210-213): the operation of the first
`OperationDefinition`, `"unknown"` when there is none. -/
def getOperationType (doc : Document) : String :=
  match doc.definitions.find?
      (fun d => match d with | .operation _ _ => true | _ => false) with
  | some (.operation op _) => op.str
  | _ => "unknown"

/-! ## Document transformations used to state fragment-spread invariance

These are not source functions: they are measuring devices for the theorems —
replacing a document by its transform must leave the analysis observables
unchanged, which expresses that the analysis never looks at the removed
parts. -/

/-- The document with every fragment definition's body emptied; operation
definitions are untouched. -/
def clearFragments (doc : Document) : Document :=
  ⟨doc.definitions.map (fun d =>
    match d with
    | .operation op sels => .operation op sels
    | .fragment n _ => .fragment n [])⟩

/-- Delete every fragment spread node, at any depth, from a selection list. -/
def removeSpreads : List Selection → List Selection
  | [] => []
  | .field n sub :: rest => .field n (removeSpreads sub) :: removeSpreads rest
  | .inlineFragment sub :: rest => .inlineFragment (removeSpreads sub) :: removeSpreads rest
  | .fragmentSpread _ :: rest => removeSpreads rest

/-- Delete every fragment spread node from every definition of a document. -/
def stripSpreadsDoc (doc : Document) : Document :=
  ⟨doc.definitions.map (fun d =>
    match d with
    | .operation op sels => .operation op (removeSpreads sels)
    | .fragment n sels => .fragment n (removeSpreads sels))⟩

/-! ## JavaScript string builtins (ASCII semantics) -/

/-- Whitespace test backing JS `String.prototype.trim` (ASCII range). -/
def jsIsWS (c : Char) : Bool := c.isWhitespace

/-- JS `query.trim()`. -/
def jsTrim (s : String) : String :=
  String.mk (((s.data.dropWhile jsIsWS).reverse.dropWhile jsIsWS).reverse)

/-- ASCII case folding of a character, as JS `toLowerCase` acts on ASCII. -/
def asciiLower (c : Char) : Char :=
  if 65 ≤ c.toNat ∧ c.toNat ≤ 90 then Char.ofNat (c.toNat + 32) else c

/-- JS `s.toLowerCase()` (ASCII semantics). -/
def jsToLower (s : String) : String := String.mk (s.data.map asciiLower)

/-- JS `s.startsWith(p)`. -/
def jsStartsWith (s p : String) : Bool := p.data.isPrefixOf s.data

/-! ## MD5 (RFC 1321)

Node's `crypto.createHash('md5').update(sdl).digest('hex')` implemented over
UTF-8 byte lists. Bytes are `Nat` values below 256, words `Nat` values below
`2 ^ 32`. -/

def m32 : Nat := 4294967296

def mask32 : Nat := 4294967295

/-- 32-bit complement of a word. -/
def not32 (a : Nat) : Nat := a ^^^ mask32

/-- 32-bit left rotation of a word by `n < 32` bits. -/
def rotl32 (x n : Nat) : Nat := ((x <<< n) % m32) ||| (x >>> (32 - n))

/-- Sine-derived round constants `T[i+1] = floor(2^32 * abs(sin(i+1)))`. -/
def md5K : List Nat :=
  [0xd76aa478, 0xe8c7b756, 0x242070db, 0xc1bdceee,
   0xf57c0faf, 0x4787c62a, 0xa8304613, 0xfd469501,
   0x698098d8, 0x8b44f7af, 0xffff5bb1, 0x895cd7be,
   0x6b901122, 0xfd987193, 0xa679438e, 0x49b40821,
   0xf61e2562, 0xc040b340, 0x265e5a51, 0xe9b6c7aa,
   0xd62f105d, 0x02441453, 0xd8a1e681, 0xe7d3fbc8,
   0x21e1cde6, 0xc33707d6, 0xf4d50d87, 0x455a14ed,
   0xa9e3e905, 0xfcefa3f8, 0x676f02d9, 0x8d2a4c8a,
   0xfffa3942, 0x8771f681, 0x6d9d6122, 0xfde5380c,
   0xa4beea44, 0x4bdecfa9, 0xf6bb4b60, 0xbebfbc70,
   0x289b7ec6, 0xeaa127fa, 0xd4ef3085, 0x04881d05,
   0xd9d4d039, 0xe6db99e5, 0x1fa27cf8, 0xc4ac5665,
   0xf4292244, 0x432aff97, 0xab9423a7, 0xfc93a039,
   0x655b59c3, 0x8f0ccc92, 0xffeff47d, 0x85845dd1,
   0x6fa87e4f, 0xfe2ce6e0, 0xa3014314, 0x4e0811a1,
   0xf7537e82, 0xbd3af235, 0x2ad7d2bb, 0xeb86d391]

/-- Per-round left-rotation amounts. -/
def md5S : List Nat :=
  [7, 12, 17, 22, 7, 12, 17, 22, 7, 12, 17, 22, 7, 12, 17, 22,
   5, 9, 14, 20, 5, 9, 14, 20, 5, 9, 14, 20, 5, 9, 14, 20,
   4, 11, 16, 23, 4, 11, 16, 23, 4, 11, 16, 23, 4, 11, 16, 23,
   6, 10, 15, 21, 6, 10, 15, 21, 6, 10, 15, 21, 6, 10, 15, 21]

/-- Little-endian 32-bit word `g` of a 64-byte block. -/
def wordAt (block : List Nat) (g : Nat) : Nat :=
  block.getD (4 * g) 0 + 256 * block.getD (4 * g + 1) 0 +
    65536 * block.getD (4 * g + 2) 0 + 16777216 * block.getD (4 * g + 3) 0

/-- One of the 64 MD5 rounds on state `(A, B, C, D)`. -/
def md5Round (block : List Nat) (st : Nat × Nat × Nat × Nat) (i : Nat) :
    Nat × Nat × Nat × Nat :=
  let (A, B, C, D) := st
  let fg : Nat × Nat :=
    if i < 16 then ((B &&& C) ||| (not32 B &&& D), i)
    else if i < 32 then ((D &&& B) ||| (not32 D &&& C), (5 * i + 1) % 16)
    else if i < 48 then (B ^^^ C ^^^ D, (3 * i + 5) % 16)
    else (C ^^^ (B ||| not32 D), (7 * i) % 16)
  let Fv := (fg.1 + A + md5K.getD i 0 + wordAt block fg.2) % m32
  (D, (B + rotl32 Fv (md5S.getD i 0)) % m32, B, C)

/-- Process one 64-byte block. -/
def md5Block (st : Nat × Nat × Nat × Nat) (block : List Nat) :
    Nat × Nat × Nat × Nat :=
  let (A, B, C, D) := (List.range 64).foldl (md5Round block) st
  ((st.1 + A) % m32, (st.2.1 + B) % m32, (st.2.2.1 + C) % m32, (st.2.2.2 + D) % m32)

/-- The 8-byte little-endian encoding of the message bit length. -/
def lenBytes (len : Nat) : List Nat :=
  let bl := (8 * len) % (2 ^ 64)
  [bl % 256, bl >>> 8 % 256, bl >>> 16 % 256, bl >>> 24 % 256,
   bl >>> 32 % 256, bl >>> 40 % 256, bl >>> 48 % 256, bl >>> 56 % 256]

/-- MD5 padding: a 0x80 byte, zeros to 56 mod 64, then the bit length. -/
def padMsg (msg : List Nat) : List Nat :=
  let zeros := (120 - (msg.length + 1) % 64) % 64
  msg ++ 128 :: List.replicate zeros 0 ++ lenBytes msg.length

/-- Split into 64-byte chunks (the fuel equals the list length, which bounds
the number of chunks). -/
def toBlocksAux : Nat → List Nat → List (List Nat)
  | 0, _ => []
  | _ + 1, [] => []
  | fuel + 1, l => l.take 64 :: toBlocksAux fuel (l.drop 64)

def toBlocks (l : List Nat) : List (List Nat) := toBlocksAux l.length l

/-- MD5 digest of a byte list, as four little-endian words. -/
def md5Digest (msg : List Nat) : Nat × Nat × Nat × Nat :=
  (toBlocks (padMsg msg)).foldl md5Block
    (0x67452301, 0xefcdab89, 0x98badcfe, 0x10325476)

/-- Little-endian bytes of a 32-bit word. -/
def wordLEBytes (w : Nat) : List Nat :=
  [w % 256, w >>> 8 % 256, w >>> 16 % 256, w >>> 24 % 256]

/-- The 16 digest bytes. -/
def md5Bytes (msg : List Nat) : List Nat :=
  let (a, b, c, d) := md5Digest msg
  wordLEBytes a ++ wordLEBytes b ++ wordLEBytes c ++ wordLEBytes d

/-- Lower-case hex digit for `n < 16`. -/
def hexDigit (n : Nat) : Char :=
  if n < 10 then Char.ofNat (48 + n) else Char.ofNat (87 + n)

/-- Two hex characters of a byte. -/
def byteHexChars (b : Nat) : List Char := [hexDigit (b / 16 % 16), hexDigit (b % 16)]

/-- UTF-8 encoding of one character (Node hashes the UTF-8 bytes of the SDL). -/
def utf8EncodeCharBytes (c : Char) : List Nat :=
  let n := c.toNat
  if n < 128 then [n]
  else if n < 2048 then [192 ||| (n >>> 6), 128 ||| (n &&& 63)]
  else if n < 65536 then
    [224 ||| (n >>> 12), 128 ||| (n >>> 6 &&& 63), 128 ||| (n &&& 63)]
  else
    [240 ||| (n >>> 18), 128 ||| (n >>> 12 &&& 63),
     128 ||| (n >>> 6 &&& 63), 128 ||| (n &&& 63)]

def utf8Bytes (s : String) : List Nat := s.data.flatMap utf8EncodeCharBytes

/-- The 32 hex characters of `crypto.createHash('md5').update(s).digest('hex')`. -/
def md5HexChars (s : String) : List Char :=
  (md5Bytes (utf8Bytes s)).flatMap byteHexChars

/-- Embeds `generateSchemaVersion` (graphql-client.ts lines 205-208): the MD5
hex digest of the SDL text, truncated by `.substring(0, 8)` to its first 8
characters. -/
def generateSchemaVersion (sdl : String) : String :=
  String.mk ((md5HexChars sdl).take 8)

/-! ## Client model

Opaque external values: the payload returned by the transport and the schema
object built by `buildClientSchema` are never inspected by the client code, so
they are represented by `Nat` handles. -/

/-- Opaque response payload (graphql-request's `request` result /
introspection data). -/
abbrev GData := Nat

/-- Opaque `GraphQLSchema` handle. -/
abbrev GSchema := Nat

/-- A GraphQL document argument: `queryInfo.query` is a string or an already
parsed document (graphql-client.ts lines 90-93). -/
inductive QueryArg where
  | text (s : String)
  | doc (d : Document)

/-- Variables: an opaque JS record, kept as an association list. -/
abbrev Variables := List (String × String)

/-- Embeds `QueryInfo` (types module): query plus optional variables,
operation name and per-request headers. -/
structure QueryInfo where
  query : QueryArg
  vars : Option Variables := none
  operationName : Option String := none
  headers : Option Headers := none

/-- Embeds `GraphQLEndpoint`: url, default headers, optional timeout. -/
structure Endpoint where
  url : String
  headers : Headers
  timeout : Option Nat := none

/-- Embeds `SchemaInfo` (graphql-client.ts lines 62-67): schema handle, SDL
text, `lastUpdated` timestamp (`new Date()`), content-hash version. -/
structure SchemaInfo where
  schema : GSchema
  sdl : String
  lastUpdated : Nat
  version : String

/-- The mutable fields of `GraphQLClientService`: endpoint, cached schema
snapshot, retry budget. -/
structure ClientState where
  endpoint : Endpoint
  schema : Option SchemaInfo := none
  maxRetries : Nat := 3

/-- Embeds `PerformanceMetrics`: `startTime` always set, `endTime`/`duration`
only on network success. -/
structure Metrics where
  startTime : Nat
  endTime : Option Nat := none
  duration : Option Int := none
deriving DecidableEq, Repr

/-- The `extensions` object attached to a `QueryResult`: `dryRun`, `query` and
`variables` only on the dry-run path, `metrics` always. -/
structure Extensions where
  dryRun : Option Bool := none
  query : Option String := none
  vars : Option Variables := none
  metrics : Metrics
deriving DecidableEq, Repr

/-- Embeds `QueryResult`: `data` (`null` on dry run), `errors` (never set by
`executeQuery` itself), `extensions`. -/
structure QueryResult where
  data : Option GData := none
  errors : Option (List String) := none
  extensions : Extensions
deriving DecidableEq, Repr

/-- The typed error taxonomy of `src/types` as raised by the client:
each error carries its message, plus the structured details the code attaches. -/
inductive ExecError where
  | validationError (message : String) (errors : List String)
  | networkError (message : String) (originalError : Option String)
  | queryError (message : String)
  | schemaError (message : String)
deriving DecidableEq, Repr

/-- JS `error.message`. -/
def ExecError.msg : ExecError → String
  | .validationError m _ => m
  | .networkError m _ => m
  | .queryError m => m
  | .schemaError m => m

/-- Observable side effects of one `executeQuery` call: network attempts (with
the attempt index and the headers sent) and backoff sleeps (milliseconds). -/
inductive Event where
  | attempt (idx : Nat) (headers : Headers)
  | sleep (ms : Nat)
deriving DecidableEq, Repr

/-- External collaborators, fixed for the duration of one call: the graphql
library, the transport and the clocks. `request i` is the outcome of the
`i`-th network attempt of the call. -/
structure GEnv where
  parseQ : String → Except String Document
  printQ : Document → String
  validateQ : GSchema → Document → List String
  request : Nat → Except String GData
  buildSchemaF : GData → Except String GSchema
  printSchemaF : GSchema → String
  introspectionQuery : String
  nowStart : Nat
  nowEnd : Nat
  nowDate : Nat

/-- Resolve `queryInfo.query` to a document (graphql-client.ts lines 91-93):
parse when given as text, use as-is otherwise. -/
def queryDocOf (env : GEnv) : QueryArg → Except String Document
  | .text s => env.parseQ s
  | .doc d => .ok d

/-- The `NetworkError` message of line 157. -/
def netErrMsg (maxRetries : Nat) : String :=
  "Query execution failed after " ++ toString (maxRetries + 1) ++ " attempts"

/-- Embeds the retry loop of `executeQuery` (lines 127-159) as a recursion
over the remaining attempt indices (`for (let attempt = 0; attempt <=
maxRetries; attempt++)` iterates `List.range (maxRetries + 1)`). On success
the data is returned immediately; on failure the loop records the attempt,
sleeps `2 ^ attempt * 1000` ms when `attempt < maxRetries`, remembers the
error as `lastError` and continues; when attempts are exhausted it fails with
`NetworkError` carrying the last observed error. -/
def runAttempts (env : GEnv) (hdrs : Headers) (maxRetries : Nat) :
    List Nat → Option String → Except ExecError GData × List Event
  | [], lastError => (.error (.networkError (netErrMsg maxRetries) lastError), [])
  | i :: rest, _ =>
    match env.request i with
    | .ok d => (.ok d, [.attempt i hdrs])
    | .error e =>
      let tail := runAttempts env hdrs maxRetries rest (some e)
      (tail.1,
        .attempt i hdrs ::
          ((if i < maxRetries then [Event.sleep (2 ^ i * 1000)] else []) ++ tail.2))

/-- The effective headers of a network attempt (lines 120-124): endpoint
default headers overlaid by the per-request headers. -/
def effHeaders (st : ClientState) (q : QueryInfo) : Headers :=
  jsMerge st.endpoint.headers (q.headers.getD [])

/-- The dry-run result of lines 108-118. -/
def dryRunResult (env : GEnv) (q : QueryInfo) (queryString : String) : QueryResult :=
  { data := none
    errors := none
    extensions :=
      { dryRun := some true
        query := some queryString
        vars := q.vars
        metrics := { startTime := env.nowStart } } }

/-- The success result of lines 137-145, with end-of-call metrics. -/
def successResult (env : GEnv) (d : GData) : QueryResult :=
  { data := some d
    errors := none
    extensions :=
      { metrics :=
          { startTime := env.nowStart
            endTime := some env.nowEnd
            duration := some ((env.nowEnd : Int) - (env.nowStart : Int)) } } }

/-- Lines 108-159 of `executeQuery`, after parsing and validation: dry-run
short-circuit, header merge, retry loop. -/
def execCore (env : GEnv) (st : ClientState) (q : QueryInfo) (queryString : String)
    (dryRun : Bool) : Except ExecError QueryResult × List Event :=
  if dryRun then (.ok (dryRunResult env q queryString), [])
  else
    let r := runAttempts env (effHeaders st q) st.maxRetries
      (List.range (st.maxRetries + 1)) none
    (r.1.map (successResult env), r.2)

/-- Embeds `executeQuery` (graphql-client.ts lines 83-171). Parse failures are
wrapped as `QueryError` by the outer catch (lines 161-170); `ValidationError`
and `NetworkError` are rethrown unchanged. -/
def executeQuery (env : GEnv) (st : ClientState) (q : QueryInfo) (dryRun : Bool) :
    Except ExecError QueryResult × List Event :=
  match queryDocOf env q.query with
  | .error e => (.error (.queryError ("Query execution failed: " ++ e)), [])
  | .ok doc =>
    let queryString := env.printQ doc
    match st.schema with
    | some si =>
      let ve := env.validateQ si.schema doc
      if 0 < ve.length then
        (.error (.validationError "Query validation failed" ve), [])
      else execCore env st q queryString dryRun
    | none => execCore env st q queryString dryRun

/-- The `QueryInfo` built by `introspectSchema` (lines 40-48). -/
def introspectQueryInfo (env : GEnv) (requestHeaders : Option Headers) : QueryInfo :=
  { query := .text env.introspectionQuery, headers := requestHeaders }

/-- The catch of lines 72-80: a `SchemaError` is rethrown unchanged, anything
else is wrapped. -/
def wrapIntrospectError (e : ExecError) : ExecError :=
  match e with
  | .schemaError m => .schemaError m
  | e => .schemaError ("Schema introspection failed: " ++ e.msg)

/-- Embeds `introspectSchema` (graphql-client.ts lines 38-81): execute the
fixed introspection document, fail with `SchemaError` when the result carries
errors or no data, otherwise build the schema, print its SDL, hash it and
store the new snapshot in `this.schema`. Returns the result, the updated
client state and the events performed. -/
def introspectSchema (env : GEnv) (st : ClientState) (requestHeaders : Option Headers) :
    Except ExecError SchemaInfo × ClientState × List Event :=
  match executeQuery env st (introspectQueryInfo env requestHeaders) false with
  | (.error e, evs) => (.error (wrapIntrospectError e), st, evs)
  | (.ok qr, evs) =>
    match qr.errors, qr.data with
    | some _, _ => (.error (.schemaError "Failed to introspect schema"), st, evs)
    | none, none => (.error (.schemaError "Failed to introspect schema"), st, evs)
    | none, some d =>
      match env.buildSchemaF d with
      | .error msg =>
        (.error (.schemaError ("Schema introspection failed: " ++ msg)), st, evs)
      | .ok sch =>
        let sdl := env.printSchemaF sch
        let si : SchemaInfo :=
          { schema := sch
            sdl := sdl
            lastUpdated := env.nowDate
            version := generateSchemaVersion sdl }
        (.ok si, { st with schema := some si }, evs)

/-! ## Tool layer (`src/tools/query-graphql.ts`) -/

/-- The parsed `query-graphql` arguments (`QueryGraphQLParamsSchema`): the
`validate` flag defaults to true and `dryRun` to false. -/
structure QueryGraphQLParams where
  query : String
  vars : Option Variables := none
  operationName : Option String := none
  validate : Bool := true
  dryRun : Bool := false
  headers : Option Headers := none

/-- Embeds `detectOperationType` (query-graphql.ts lines 125-145):
keyword-prefix match on the trimmed lower-cased text, falling back to parsing
the document (`operationDef?.operation || 'query'`, and `'query'` when the
text does not parse). -/
def detectOperationType (env : GEnv) (query : String) : String :=
  let trimmedQuery := jsToLower (jsTrim query)
  if jsStartsWith trimmedQuery "mutation" then "mutation"
  else if jsStartsWith trimmedQuery "subscription" then "subscription"
  else if jsStartsWith trimmedQuery "query" || jsStartsWith trimmedQuery "\x7b" then
    "query"
  else
    match env.parseQ query with
    | .ok doc =>
      match doc.definitions.find?
          (fun d => match d with | .operation _ _ => true | _ => false) with
      | some (.operation op _) => op.str
      | _ => "query"
    | .error _ => "query"

/-- Errors escaping `handleQueryGraphQL`: the plain policy `Error`s of lines
74-80, or a rethrown client error. -/
inductive HErr where
  | policyError (message : String)
  | execError (e : ExecError)
deriving DecidableEq, Repr

def mutationDisabledMsg : String :=
  "Mutations are disabled. Set allowMutations to true to enable them."

def subscriptionDisabledMsg : String :=
  "Subscriptions are disabled. Set allowSubscriptions to true to enable them."

/-- Embeds `handleQueryGraphQL` (query-graphql.ts lines 47-122): detect the
operation kind from the raw text, reject disabled mutations/subscriptions
before calling the client, otherwise build the `QueryInfo` from the parsed
params and delegate to `executeQuery` (the catch only logs and rethrows). The
`validate` param is parsed but never consulted. -/
def handleQueryGraphQL (env : GEnv) (st : ClientState) (p : QueryGraphQLParams)
    (allowMutations allowSubscriptions : Bool) :
    Except HErr QueryResult × List Event :=
  let operationType := detectOperationType env p.query
  if operationType = "mutation" ∧ allowMutations = false then
    (.error (.policyError mutationDisabledMsg), [])
  else if operationType = "subscription" ∧ allowSubscriptions = false then
    (.error (.policyError subscriptionDisabledMsg), [])
  else
    let qi : QueryInfo :=
      { query := .text p.query
        vars := p.vars
        operationName := p.operationName
        headers := p.headers }
    match executeQuery env st qi p.dryRun with
    | (.ok r, evs) => (.ok r, evs)
    | (.error e, evs) => (.error (.execError e), evs)

/-- Number of network attempts recorded in an event trace. -/
def attemptCount (evs : List Event) : Nat :=
  evs.countP (fun e => match e with | .attempt _ _ => true | _ => false)

/-- The events of one failed attempt: the attempt itself, then the backoff
sleep unless it was the final possible attempt. -/
def failStep (hdrs : Headers) (maxRetries i : Nat) : List Event :=
  .attempt i hdrs :: (if i < maxRetries then [Event.sleep (2 ^ i * 1000)] else [])

/-- The trace of a run of failed attempts at the given indices. -/
def failTrace (hdrs : Headers) (maxRetries : Nat) (idxs : List Nat) : List Event :=
  idxs.flatMap (failStep hdrs maxRetries)

/-- The `lastError` variable of the retry loop after failed attempts at the
given indices, starting from `last`. -/
def lastErrAcc (errF : Nat → String) (last : Option String) (idxs : List Nat) :
    Option String :=
  idxs.foldl (fun _ i => some (errF i)) last

/-! ## Concrete documents used by the analysis claims -/

/-- The graphql-js parse of `query { a { b { c } } }`. -/
def docAbc : Document :=
  ⟨[.operation .query [.field "a" [.field "b" [.field "c" []]]]]⟩

/-- The graphql-js parse of `query { a { ...F } } fragment F on T { b }`:
a named fragment spread inside the field `a`, with the field `b` occurring
inside the fragment definition. -/
def docSpread : Document :=
  ⟨[.operation .query [.field "a" [.fragmentSpread "F"]],
    .fragment "F" [.field "b" []]]⟩

/-! ## Retry-loop lemmas -/

theorem runAttempts_nil (env : GEnv) (hdrs : Headers) (n : Nat) (last : Option String) :
    runAttempts env hdrs n [] last =
      (.error (.networkError (netErrMsg n) last), []) := rfl

theorem runAttempts_cons_ok (env : GEnv) (hdrs : Headers) (n : Nat) {i : Nat}
    {d : GData} (rest : List Nat) (last : Option String)
    (h : env.request i = .ok d) :
    runAttempts env hdrs n (i :: rest) last = (.ok d, [.attempt i hdrs]) := by
  simp [runAttempts, h]

theorem runAttempts_cons_err (env : GEnv) (hdrs : Headers) (n : Nat) {i : Nat}
    {e : String} (rest : List Nat) (last : Option String)
    (h : env.request i = .error e) :
    runAttempts env hdrs n (i :: rest) last =
      ((runAttempts env hdrs n rest (some e)).1,
        .attempt i hdrs ::
          ((if i < n then [Event.sleep (2 ^ i * 1000)] else []) ++
            (runAttempts env hdrs n rest (some e)).2)) := by
  simp [runAttempts, h]

/-- A run of failed attempts peels off as a trace prefix, threading the last
observed error. -/
theorem runAttempts_fail_prefix (env : GEnv) (hdrs : Headers) (n : Nat)
    (errF : Nat → String) (idxs : List Nat) :
    ∀ (rest : List Nat) (last : Option String),
      (∀ i ∈ idxs, env.request i = .error (errF i)) →
      runAttempts env hdrs n (idxs ++ rest) last =
        ((runAttempts env hdrs n rest (lastErrAcc errF last idxs)).1,
          failTrace hdrs n idxs ++
            (runAttempts env hdrs n rest (lastErrAcc errF last idxs)).2) := by
  induction idxs with
  | nil => intro rest last _; simp [lastErrAcc, failTrace]
  | cons i tl ih =>
    intro rest last h
    have hi : env.request i = .error (errF i) := h i (by simp)
    have htl : ∀ j ∈ tl, env.request j = .error (errF j) := fun j hj =>
      h j (by simp [hj])
    rw [List.cons_append, runAttempts_cons_err env hdrs n _ _ hi,
      ih rest (some (errF i)) htl]
    simp [lastErrAcc, failTrace, failStep, List.append_assoc]

theorem lastErrAcc_concat (errF : Nat → String) (last : Option String)
    (idxs : List Nat) (i : Nat) :
    lastErrAcc errF last (idxs ++ [i]) = some (errF i) := by
  simp [lastErrAcc]

theorem attemptCount_runAttempts_le (env : GEnv) (hdrs : Headers) (n : Nat)
    (idxs : List Nat) :
    ∀ last, attemptCount (runAttempts env hdrs n idxs last).2 ≤ idxs.length := by
  induction idxs with
  | nil => intro last; simp [runAttempts_nil, attemptCount]
  | cons i tl ih =>
    intro last
    cases h : env.request i with
    | ok d =>
      rw [runAttempts_cons_ok env hdrs n tl last h]
      simp [attemptCount]
    | error e =>
      rw [runAttempts_cons_err env hdrs n tl last h]
      have := ih (some e)
      by_cases hi : i < n <;>
        simp [attemptCount, hi, List.countP_cons, List.countP_append] at this ⊢ <;>
        omega

/-- Rewriting `executeQuery` past a successful parse and a passing (or absent)
schema validation. -/
theorem executeQuery_core_eq (env : GEnv) (st : ClientState) (q : QueryInfo)
    (doc : Document) (hq : queryDocOf env q.query = .ok doc)
    (hv : ∀ si, st.schema = some si → env.validateQ si.schema doc = [])
    (dryRun : Bool) :
    executeQuery env st q dryRun = execCore env st q (env.printQ doc) dryRun := by
  unfold executeQuery
  rw [hq]
  cases hst : st.schema with
  | none => rfl
  | some si => simp [hv si hst]

theorem range_split (k n : Nat) (h : k ≤ n) :
    List.range (n + 1) = List.range k ++ k :: List.range' (k + 1) (n - k) := by
  rw [List.range_eq_range', List.range_eq_range']
  have h2 : n + 1 = (n - k) + 1 + k := by omega
  rw [h2, ← List.range'_append_1 0 k ((n - k) + 1)]
  simp [List.range'_succ]

theorem attemptCount_execCore_le (env : GEnv) (st : ClientState) (q : QueryInfo)
    (qs : String) (dryRun : Bool) :
    attemptCount (execCore env st q qs dryRun).2 ≤ st.maxRetries + 1 := by
  unfold execCore
  by_cases hd : dryRun = true
  · simp [hd, attemptCount]
  · simp only [Bool.not_eq_true] at hd
    have := attemptCount_runAttempts_le env (effHeaders st q) st.maxRetries
      (List.range (st.maxRetries + 1)) none
    simp [hd] at this ⊢
    omega

/-- Every `executeQuery` call performs at most `maxRetries + 1` network
attempts, on every path. -/
theorem attemptCount_executeQuery_le (env : GEnv) (st : ClientState)
    (q : QueryInfo) (dryRun : Bool) :
    attemptCount (executeQuery env st q dryRun).2 ≤ st.maxRetries + 1 := by
  unfold executeQuery
  cases hq : queryDocOf env q.query with
  | error e => simp [attemptCount]
  | ok doc =>
    cases hst : st.schema with
    | none => exact attemptCount_execCore_le env st q (env.printQ doc) dryRun
    | some si =>
      by_cases hv : 0 < (env.validateQ si.schema doc).length
      · simp [hv, attemptCount]
      · simp only [hv, if_false]
        exact attemptCount_execCore_le env st q (env.printQ doc) dryRun

/-- Failure condition of one introspection call: the underlying execution
fails, or the result carries GraphQL errors or no data, or building the
client schema from the data fails. -/
def introspectionFailure (env : GEnv) (st : ClientState) (rh : Option Headers) : Prop :=
  match executeQuery env st (introspectQueryInfo env rh) false with
  | (.error _, _) => True
  | (.ok qr, _) =>
    qr.errors.isSome = true ∨ qr.data = none ∨
      ∀ d, qr.data = some d → ∃ m, env.buildSchemaF d = .error m

/-! ## Concrete environments used by witnesses -/

/-- Transport failing on attempts 0 and 1, succeeding from attempt 2 on. -/
def envC1 : GEnv :=
  { parseQ := fun _ => .ok docAbc
    printQ := fun _ => "qtext"
    validateQ := fun _ _ => []
    request := fun i => if i < 2 then .error "boom" else .ok 7
    buildSchemaF := fun _ => .ok 0
    printSchemaF := fun _ => "sdl"
    introspectionQuery := "iq"
    nowStart := 100
    nowEnd := 200
    nowDate := 1 }

def stC1 : ClientState :=
  { endpoint := { url := "u", headers := [("A", "1")] }, schema := none, maxRetries := 3 }

def qC1 : QueryInfo := { query := .text "query { a }" }

def siC2 : SchemaInfo := { schema := 0, sdl := "s", lastUpdated := 0, version := "v" }

def stC2 : ClientState :=
  { endpoint := { url := "u", headers := [] }, schema := some siC2, maxRetries := 3 }

/-- Environment whose schema validation reports one error. -/
def envC2 : GEnv :=
  { envC1 with validateQ := fun _ _ => ["bad field"] }

/-- Transport succeeding on the first attempt. -/
def envC10 : GEnv := { envC1 with request := fun _ => .ok 5 }

/-- Environment whose introspection path fully succeeds. -/
def envC7 : GEnv :=
  { parseQ := fun _ => .ok docAbc
    printQ := fun _ => "q"
    validateQ := fun _ _ => []
    request := fun _ => .ok 3
    buildSchemaF := fun _ => .ok 0
    printSchemaF := fun _ => "sdl7"
    introspectionQuery := "iq"
    nowStart := 0
    nowEnd := 1
    nowDate := 5 }

/-- Same remote schema, observed later. -/
def envC7b : GEnv := { envC7 with nowDate := 9 }

/-- The snapshot produced by `introspectSchema envC7 stC1 none`. -/
def siC7 : SchemaInfo :=
  { schema := 0, sdl := "sdl7", lastUpdated := 5
    version := generateSchemaVersion "sdl7" }

/-- The snapshot produced by the second introspection, via `envC7b`. -/
def siC7b : SchemaInfo :=
  { schema := 0, sdl := "sdl7", lastUpdated := 9
    version := generateSchemaVersion "sdl7" }

/-- A successful introspection environment for the C8 witness. -/
def envC8 : GEnv := { envC7 with nowDate := 7, printSchemaF := fun _ => "sdl8" }

/-- The snapshot produced by `introspectSchema envC8 stC1 none`. -/
def siC8 : SchemaInfo :=
  { schema := 0, sdl := "sdl8", lastUpdated := 7
    version := generateSchemaVersion "sdl8" }

/-- A `query-graphql` call whose text begins with `mutation`. -/
def pC3 : QueryGraphQLParams := { query := "mutation { x }" }

/-! ## Verified claims -/

/-- C9: analyze on `query { a { b { c } } }` yields depth 3, complexity 3 and
fields `[a, b, c]` in insertion order. -/
theorem c9_analyze_abc :
    calculateDepth docAbc = 3 ∧ calculateComplexity docAbc = 3 ∧
      extractFields docAbc = ["a", "b", "c"] := by
  refine ⟨?_, ?_, ?_⟩ <;>
    simp [docAbc, calculateDepth, calculateComplexity, extractFields,
      depthSels, complexitySels, fieldsSels, jsSetDedup]

/-- C5 counterexample: on `docSpread` the claim "the fields set includes the
field names occurring inside the spread fragment's definition" fails — the
traversal never enters the fragment definition, so `b` is absent. -/
theorem c5_counterexample_fragment_fields :
    extractFields docSpread = ["a"] ∧ "b" ∉ extractFields docSpread := by
  have h : extractFields docSpread = ["a"] := by
    simp [docSpread, extractFields, fieldsSels, jsSetDedup]
  exact ⟨h, by simp [h]⟩

/-- C1: with retry budget `maxRetries = n` and a parseable, validation-passing
(or schema-less) non-dry-run request: (a) when the first `k ≤ n` attempts fail
and attempt `k` succeeds, `executeQuery` returns the success result built from
attempt `k`'s data, having performed exactly attempts `0..k` with a
`2 ^ attempt` second (i.e. `2 ^ attempt * 1000` ms) sleep after each failed
attempt and none after the succeeding one; (b) when all `n + 1` attempts fail
it raises `NetworkError` wrapping the last observed error, with a message
stating the total attempt count `n + 1`, after a sleep following every failed
attempt except the final one; (c) on every path at most `n + 1` attempts are
performed. -/
theorem c1_retry_and_backoff (env : GEnv) (st : ClientState) (q : QueryInfo)
    (doc : Document) (errF : Nat → String)
    (hq : queryDocOf env q.query = .ok doc)
    (hv : ∀ si, st.schema = some si → env.validateQ si.schema doc = []) :
    (∀ k d, k ≤ st.maxRetries →
       (∀ j, j < k → env.request j = .error (errF j)) →
       env.request k = .ok d →
       executeQuery env st q false =
         (.ok (successResult env d),
          failTrace (effHeaders st q) st.maxRetries (List.range k) ++
            [.attempt k (effHeaders st q)])) ∧
    ((∀ j, j ≤ st.maxRetries → env.request j = .error (errF j)) →
       executeQuery env st q false =
         (.error (.networkError (netErrMsg st.maxRetries) (some (errF st.maxRetries))),
          failTrace (effHeaders st q) st.maxRetries (List.range (st.maxRetries + 1)))) ∧
    attemptCount (executeQuery env st q false).2 ≤ st.maxRetries + 1 := by
  refine ⟨?_, ?_, attemptCount_executeQuery_le env st q false⟩
  · intro k d hk hfail hok
    have hpre : ∀ i ∈ List.range k, env.request i = .error (errF i) := by
      intro i hi
      exact hfail i (List.mem_range.mp hi)
    rw [executeQuery_core_eq env st q doc hq hv]
    unfold execCore
    rw [range_split k st.maxRetries hk,
      runAttempts_fail_prefix env (effHeaders st q) st.maxRetries errF
        (List.range k) _ none hpre,
      runAttempts_cons_ok env (effHeaders st q) st.maxRetries _ _ hok]
    simp [Except.map]
  · intro hfail
    have hpre : ∀ i ∈ List.range (st.maxRetries + 1),
        env.request i = .error (errF i) := by
      intro i hi
      exact hfail i (Nat.lt_succ_iff.mp (List.mem_range.mp hi))
    have hr := runAttempts_fail_prefix env (effHeaders st q) st.maxRetries errF
      (List.range (st.maxRetries + 1)) [] none hpre
    have hlast : lastErrAcc errF none (List.range (st.maxRetries + 1)) =
        some (errF st.maxRetries) := by
      rw [List.range_succ]
      exact lastErrAcc_concat errF none (List.range st.maxRetries) st.maxRetries
    rw [executeQuery_core_eq env st q doc hq hv]
    unfold execCore
    rw [List.append_nil] at hr
    rw [hr, hlast, runAttempts_nil]
    simp [Except.map]

/-- C1 witness: budget 3, transport failing twice then succeeding — three
attempts with sleeps of 1 and 2 seconds in between. -/
theorem c1_witness :
    executeQuery envC1 stC1 qC1 false =
      (.ok (successResult envC1 7),
        [.attempt 0 (effHeaders stC1 qC1), .sleep 1000,
         .attempt 1 (effHeaders stC1 qC1), .sleep 2000,
         .attempt 2 (effHeaders stC1 qC1)]) := by
  have h := (c1_retry_and_backoff envC1 stC1 qC1 docAbc (fun _ => "boom") rfl
      (fun si hsi => nomatch hsi)).1 2 7 (by decide)
      (fun j hj => by
        show (if j < 2 then Except.error "boom" else Except.ok 7) = .error "boom"
        rw [if_pos hj])
      rfl
  rw [h]
  norm_num [failTrace, failStep, List.range_succ, stC1]

/-- C2: when a schema snapshot is cached and validation of the parsed document
yields a non-empty error list, `executeQuery` raises `ValidationError`
carrying the full ordered error list and performs no network attempt. -/
theorem c2_validation_aborts (env : GEnv) (st : ClientState) (q : QueryInfo)
    (doc : Document) (si : SchemaInfo) (errs : List String)
    (hq : queryDocOf env q.query = .ok doc)
    (hs : st.schema = some si)
    (hv : env.validateQ si.schema doc = errs)
    (hne : errs ≠ []) (dryRun : Bool) :
    executeQuery env st q dryRun =
      (.error (.validationError "Query validation failed" errs), []) := by
  unfold executeQuery
  rw [hq, hs]
  simp [hv, List.length_pos.mpr hne]

/-- C2 witness: a cached schema whose validation reports one error aborts the
call with that error list and an empty event trace. -/
theorem c2_witness :
    executeQuery envC2 stC2 qC1 false =
      (.error (.validationError "Query validation failed" ["bad field"]), []) :=
  c2_validation_aborts envC2 stC2 qC1 docAbc siC2 ["bad field"] rfl rfl rfl
    (by simp) false

/-- C4: a dry-run request whose document parses (and passes validation when a
schema is cached) returns immediately with `data = null` and extensions
carrying `dryRun = true`, the canonical query text, the variables and a
metrics object with only `startTime`; no network attempt and no sleep
happen. -/
theorem c4_dry_run (env : GEnv) (st : ClientState) (q : QueryInfo)
    (doc : Document)
    (hq : queryDocOf env q.query = .ok doc)
    (hv : ∀ si, st.schema = some si → env.validateQ si.schema doc = []) :
    executeQuery env st q true =
      (.ok (dryRunResult env q (env.printQ doc)), []) := by
  rw [executeQuery_core_eq env st q doc hq hv]
  rfl

/-- C4 witness: a concrete dry run returns `data = none`, `dryRun = some
true`, the canonical text, the variables, start-time-only metrics, and an
empty event trace. -/
theorem c4_witness :
    executeQuery envC1 stC1 qC1 true =
      (.ok { data := none
             errors := none
             extensions :=
               { dryRun := some true
                 query := some "qtext"
                 vars := none
                 metrics := { startTime := 100 } } }, []) := by
  have h := c4_dry_run envC1 stC1 qC1 docAbc rfl (fun si hsi => nomatch hsi)
  rw [h]
  rfl

/-! ## Fragment-spread invariance lemmas -/

theorem mem_foldl_dedup : ∀ (l acc : List String) (n : String),
    n ∈ l.foldl (fun acc x => if x ∈ acc then acc else acc ++ [x]) acc →
    n ∈ acc ∨ n ∈ l := by
  intro l
  induction l with
  | nil => intro acc n h; exact Or.inl h
  | cons x tl ih =>
    intro acc n h
    rw [List.foldl_cons] at h
    rcases ih _ n h with h1 | h1
    · by_cases hx : x ∈ acc
      · rw [if_pos hx] at h1
        exact Or.inl h1
      · rw [if_neg hx] at h1
        rcases List.mem_append.mp h1 with h2 | h2
        · exact Or.inl h2
        · simp at h2
          subst h2
          exact Or.inr (by simp)
    · exact Or.inr (by simp [h1])

theorem mem_jsSetDedup (l : List String) (n : String) (h : n ∈ jsSetDedup l) :
    n ∈ l := by
  rcases mem_foldl_dedup l [] n h with h1 | h1
  · simp at h1
  · exact h1

/-- Every name in the field-collection fold comes from some operation
definition's traversal. -/
theorem mem_collectFields : ∀ (defs : List Definition) (acc : List String)
    (n : String),
    n ∈ defs.foldl
      (fun acc d =>
        match d with
        | .operation _ sels => acc ++ fieldsSels sels
        | .fragment _ _ => acc)
      acc →
    n ∈ acc ∨
      ∃ op sels, Definition.operation op sels ∈ defs ∧ n ∈ fieldsSels sels := by
  intro defs
  induction defs with
  | nil => intro acc n h; exact Or.inl h
  | cons d tl ih =>
    intro acc n h
    rw [List.foldl_cons] at h
    rcases ih _ n h with h1 | ⟨op, sels, hmem, hn⟩
    · cases d with
      | operation op sels =>
        rcases List.mem_append.mp h1 with h2 | h2
        · exact Or.inl h2
        · exact Or.inr ⟨op, sels, by simp, h2⟩
      | fragment f fsels => exact Or.inl h1
    · exact Or.inr ⟨op, sels, by simp [hmem], hn⟩

/-- Emptying the fragment definitions does not change the field fold. -/
theorem collectFields_clearFragments : ∀ (defs : List Definition)
    (acc : List String),
    ((defs.map (fun d =>
        match d with
        | .operation op sels => Definition.operation op sels
        | .fragment n _ => Definition.fragment n [])).foldl
      (fun acc d =>
        match d with
        | .operation _ sels => acc ++ fieldsSels sels
        | .fragment _ _ => acc)
      acc) =
    defs.foldl
      (fun acc d =>
        match d with
        | .operation _ sels => acc ++ fieldsSels sels
        | .fragment _ _ => acc)
      acc := by
  intro defs
  induction defs with
  | nil => intro acc; rfl
  | cons d tl ih => intro acc; cases d <;> simp [ih]

/-- Emptying the fragment definitions does not change the depth fold. -/
theorem collectDepth_clearFragments : ∀ (defs : List Definition) (acc : Nat),
    ((defs.map (fun d =>
        match d with
        | .operation op sels => Definition.operation op sels
        | .fragment n _ => Definition.fragment n [])).foldl
      (fun acc d =>
        match d with
        | .operation _ sels => max acc (depthSels sels 1)
        | .fragment _ _ => acc)
      acc) =
    defs.foldl
      (fun acc d =>
        match d with
        | .operation _ sels => max acc (depthSels sels 1)
        | .fragment _ _ => acc)
      acc := by
  intro defs
  induction defs with
  | nil => intro acc; rfl
  | cons d tl ih => intro acc; cases d <;> simp [ih]

/-- Deleting every fragment spread leaves the depth traversal unchanged: the
traversal never descends through a spread, at any level. -/
theorem depthSels_removeSpreads : ∀ (sels : List Selection) (d : Nat),
    depthSels (removeSpreads sels) d = depthSels sels d
  | [], _ => by simp [removeSpreads]
  | .field n sub :: rest, d => by
    simp only [removeSpreads, depthSels]
    rw [depthSels_removeSpreads sub (d + 1), depthSels_removeSpreads rest d]
  | .fragmentSpread f :: rest, d => by
    simp only [removeSpreads, depthSels]
    exact depthSels_removeSpreads rest d
  | .inlineFragment sub :: rest, d => by
    simp only [removeSpreads, depthSels]
    exact depthSels_removeSpreads rest d

/-- Deleting every fragment spread does not change the depth fold. -/
theorem collectDepth_stripSpreads : ∀ (defs : List Definition) (acc : Nat),
    ((defs.map (fun d =>
        match d with
        | .operation op sels => Definition.operation op (removeSpreads sels)
        | .fragment n sels => Definition.fragment n (removeSpreads sels))).foldl
      (fun acc d =>
        match d with
        | .operation _ sels => max acc (depthSels sels 1)
        | .fragment _ _ => acc)
      acc) =
    defs.foldl
      (fun acc d =>
        match d with
        | .operation _ sels => max acc (depthSels sels 1)
        | .fragment _ _ => acc)
      acc := by
  intro defs
  induction defs with
  | nil => intro acc; rfl
  | cons d tl ih =>
    intro acc
    cases d with
    | operation op sels => simp [ih, depthSels_removeSpreads]
    | fragment n sels => simp [ih]

/-- C5 (amended): for every document, a field name occurring only inside a
spread fragment's definition is never included in the extracted fields —
every extracted name comes from an operation definition's traversal (which
never enters fragment definitions and never follows spreads), and emptying
every fragment definition's body changes neither fields nor depth — and the
reported depth does not increase below the spreading field's level: deleting
every fragment spread from the document leaves the depth unchanged. -/
theorem c5_fragment_spread_behavior :
    (∀ (doc : Document) (n : String),
       n ∈ extractFields doc →
       ∃ op sels, Definition.operation op sels ∈ doc.definitions ∧
         n ∈ fieldsSels sels) ∧
    (∀ doc : Document,
       extractFields (clearFragments doc) = extractFields doc ∧
         calculateDepth (clearFragments doc) = calculateDepth doc) ∧
    (∀ doc : Document,
       calculateDepth (stripSpreadsDoc doc) = calculateDepth doc) := by
  refine ⟨?_, ?_, ?_⟩
  · intro doc n h
    unfold extractFields at h
    have h1 := mem_jsSetDedup _ n h
    rcases mem_collectFields doc.definitions [] n h1 with h2 | h2
    · simp at h2
    · exact h2
  · intro doc
    constructor
    · unfold extractFields clearFragments
      rw [collectFields_clearFragments]
    · unfold calculateDepth clearFragments
      rw [collectDepth_clearFragments]
  · intro doc
    unfold calculateDepth stripSpreadsDoc
    rw [collectDepth_stripSpreads]

/-- C5 witness: on the concrete spread document, the extracted name `a` indeed
comes from the operation definition's traversal. -/
theorem c5_witness :
    ∃ op sels, Definition.operation op sels ∈ docSpread.definitions ∧
      "a" ∈ fieldsSels sels :=
  c5_fragment_spread_behavior.1 docSpread "a"
    (by simp [docSpread, extractFields, fieldsSels, jsSetDedup])

/-! ## Header-merge lemmas -/

theorem find?_congr_on {α : Type} (l : List α) (p q : α → Bool)
    (h : ∀ x ∈ l, p x = q x) : l.find? p = l.find? q := by
  induction l with
  | nil => rfl
  | cons x tl ih =>
    have hx := h x (by simp)
    by_cases hp : p x = true
    · rw [List.find?_cons_of_pos _ hp, List.find?_cons_of_pos _ (hx ▸ hp)]
    · have hq : ¬q x = true := by rw [← hx]; exact hp
      rw [List.find?_cons_of_neg _ hp, List.find?_cons_of_neg _ hq]
      exact ih fun y hy => h y (by simp [hy])

theorem lookupH_append (k : String) (l₁ l₂ : Headers) :
    lookupH k (l₁ ++ l₂) = (lookupH k l₁).or (lookupH k l₂) := by
  unfold lookupH
  rw [List.find?_append]
  cases List.find? (fun p => p.1 == k) l₁ <;> simp

/-- Lookup into the overridden copy of the default headers: the first entry of
`a` with the key, its value replaced by `b`'s when present. -/
theorem lookupH_map_override (a b : Headers) (k : String) :
    lookupH k (a.map (fun p => (p.1, (lookupH p.1 b).getD p.2))) =
      (a.find? (fun p => p.1 == k)).map (fun p => (lookupH p.1 b).getD p.2) := by
  unfold lookupH
  rw [List.find?_map, Option.map_map]
  rfl

/-- When the key is absent from `a`, filtering `b` down to the keys absent
from `a` does not change the lookup. -/
theorem lookupH_filter_notin (a b : Headers) (k : String)
    (hla : lookupH k a = none) :
    lookupH k (b.filter (fun p => (lookupH p.1 a).isNone)) = lookupH k b := by
  unfold lookupH at hla ⊢
  rw [List.find?_filter]
  refine congrArg (Option.map (fun p : String × String => p.2))
    (find?_congr_on _ _ _ ?_)
  intro x _
  by_cases hxk : (x.1 == k) = true
  · have hxe : x.1 = k := by simpa using hxk
    simp [hxe, hla, hxk]
  · simp [hxk]

/-- Lookup into a JS spread: per-request keys win, defaults fill the rest. -/
theorem lookupH_jsMerge (a b : Headers) (k : String) :
    lookupH k (jsMerge a b) =
      match lookupH k b with
      | some v => some v
      | none => lookupH k a := by
  unfold jsMerge
  rw [lookupH_append, lookupH_map_override]
  cases ha : a.find? (fun p => p.1 == k) with
  | some y =>
    have hy : y.1 = k := by simpa using List.find?_some ha
    have hla : lookupH k a = some y.2 := by simp [lookupH, ha]
    rw [Option.map_some', Option.or_some, hy]
    cases hb : lookupH k b with
    | some w => simp [hb]
    | none => simp [hb, hla]
  | none =>
    have hla : lookupH k a = none := by simp [lookupH, ha]
    rw [Option.map_none', Option.none_or, lookupH_filter_notin a b k hla]
    cases hb : lookupH k b with
    | some w => simp [hb]
    | none => simp [hb, hla]

theorem runAttempts_attempt_headers (env : GEnv) (hdrs : Headers) (n : Nat)
    (idxs : List Nat) :
    ∀ (last : Option String) (i : Nat) (h : Headers),
      Event.attempt i h ∈ (runAttempts env hdrs n idxs last).2 → h = hdrs := by
  induction idxs with
  | nil => intro last i h hm; rw [runAttempts_nil] at hm; simp at hm
  | cons j tl ih =>
    intro last i h hm
    cases hr : env.request j with
    | ok d =>
      rw [runAttempts_cons_ok env hdrs n tl last hr] at hm
      simp at hm
      exact hm.2
    | error e =>
      rw [runAttempts_cons_err env hdrs n tl last hr] at hm
      rcases List.mem_cons.mp hm with h1 | h2
      · simp at h1
        exact h1.2
      · rcases List.mem_append.mp h2 with h3 | h4
        · by_cases hj : j < n <;> simp [hj] at h3
        · exact ih (some e) i h h4

theorem execCore_attempt_headers (env : GEnv) (st : ClientState) (q : QueryInfo)
    (qs : String) (dryRun : Bool) (i : Nat) (h : Headers)
    (hm : Event.attempt i h ∈ (execCore env st q qs dryRun).2) :
    h = effHeaders st q := by
  unfold execCore at hm
  by_cases hd : dryRun = true
  · simp [hd] at hm
  · simp only [Bool.not_eq_true] at hd
    subst hd
    simp only [Bool.false_eq_true, if_false] at hm
    exact runAttempts_attempt_headers env (effHeaders st q) st.maxRetries
      (List.range (st.maxRetries + 1)) none i h hm

theorem executeQuery_attempt_headers (env : GEnv) (st : ClientState)
    (q : QueryInfo) (dryRun : Bool) (i : Nat) (h : Headers)
    (hm : Event.attempt i h ∈ (executeQuery env st q dryRun).2) :
    h = effHeaders st q := by
  unfold executeQuery at hm
  cases hq : queryDocOf env q.query with
  | error e => rw [hq] at hm; simp at hm
  | ok doc =>
    rw [hq] at hm
    cases hst : st.schema with
    | none =>
      rw [hst] at hm
      exact execCore_attempt_headers env st q (env.printQ doc) dryRun i h hm
    | some si =>
      rw [hst] at hm
      by_cases hv : 0 < (env.validateQ si.schema doc).length
      · simp [hv] at hm
      · simp only [hv, if_false] at hm
        exact execCore_attempt_headers env st q (env.printQ doc) dryRun i h hm

/-- C10: the effective headers of every network attempt are the endpoint's
default headers overlaid by the per-request headers; on key conflicts
(case-sensitive match) the per-request value wins; in particular defaults
`{A:1, B:2}` overlaid with `{B:3}` give `{A:1, B:3}`. -/
theorem c10_header_merge :
    (∀ (a b : Headers) (k : String),
       lookupH k (jsMerge a b) =
         match lookupH k b with
         | some v => some v
         | none => lookupH k a) ∧
    jsMerge [("A", "1"), ("B", "2")] [("B", "3")] = [("A", "1"), ("B", "3")] ∧
    (∀ (env : GEnv) (st : ClientState) (q : QueryInfo) (dryRun : Bool)
       (i : Nat) (h : Headers),
       Event.attempt i h ∈ (executeQuery env st q dryRun).2 →
       h = effHeaders st q) :=
  ⟨lookupH_jsMerge, by decide, executeQuery_attempt_headers⟩

/-- C10 witness: with default headers `{A:1}` and no per-request headers, the
single successful attempt carries exactly the merged headers `{A:1}`. -/
theorem c10_witness :
    Event.attempt 0 [("A", "1")] ∈ (executeQuery envC10 stC1 qC1 false).2 ∧
      ([("A", "1")] : Headers) = effHeaders stC1 qC1 := by
  have hmem : Event.attempt 0 [("A", "1")] ∈ (executeQuery envC10 stC1 qC1 false).2 := by
    decide
  exact ⟨hmem, c10_header_merge.2.2 envC10 stC1 qC1 false 0 [("A", "1")] hmem⟩

/-! ## Policy lemmas -/

/-- A text beginning with `subscription` does not begin with `mutation`. -/
theorem startsWith_subscription_not_mutation (t : String)
    (h : jsStartsWith t "subscription" = true) :
    jsStartsWith t "mutation" = false := by
  unfold jsStartsWith at h ⊢
  rw [List.isPrefixOf_iff_prefix] at h
  obtain ⟨t1, ht1⟩ := h
  rw [← ht1]
  rfl

/-- C3: a `query-graphql` call whose trimmed, lower-cased text begins with
`mutation` while mutations are disabled (or `subscription` while
subscriptions are disabled) is rejected with the policy error before
`executeQuery` runs — the event trace is empty, so no network attempt and no
attempt-counter increment happen. -/
theorem c3_policy_rejection (env : GEnv) (st : ClientState)
    (p : QueryGraphQLParams) (am as : Bool) :
    (jsStartsWith (jsToLower (jsTrim p.query)) "mutation" = true → am = false →
       handleQueryGraphQL env st p am as =
         (.error (.policyError mutationDisabledMsg), [])) ∧
    (jsStartsWith (jsToLower (jsTrim p.query)) "subscription" = true →
       as = false →
       handleQueryGraphQL env st p am as =
         (.error (.policyError subscriptionDisabledMsg), [])) := by
  constructor
  · intro hm ham
    subst ham
    unfold handleQueryGraphQL detectOperationType
    simp [hm]
  · intro hs has
    subst has
    have hnm := startsWith_subscription_not_mutation _ hs
    unfold handleQueryGraphQL detectOperationType
    simp [hs, hnm]

/-- C3 witness: the text `mutation { x }` with mutations disabled is rejected
with the policy message and an empty trace. -/
theorem c3_witness :
    handleQueryGraphQL envC1 stC1 pC3 false false =
      (.error (.policyError mutationDisabledMsg), []) :=
  (c3_policy_rejection envC1 stC1 pC3 false false).1 (by decide) rfl

/-- C6: the outcome of `handleQueryGraphQL` is identical whether the parsed
`validate` argument is true or false — the flag is never consulted. -/
theorem c6_validate_flag_ignored (env : GEnv) (st : ClientState)
    (p : QueryGraphQLParams) (am as : Bool) :
    handleQueryGraphQL env st { p with validate := true } am as =
      handleQueryGraphQL env st { p with validate := false } am as := rfl

/-! ## Schema version and introspection lemmas -/

theorem flatMap_byteHexChars_length (l : List Nat) :
    (l.flatMap byteHexChars).length = 2 * l.length := by
  induction l with
  | nil => simp
  | cons x tl ih =>
    simp [byteHexChars, ih]
    omega

theorem md5Bytes_length (msg : List Nat) : (md5Bytes msg).length = 16 := by
  unfold md5Bytes
  rcases md5Digest msg with ⟨a, b, c, d⟩
  simp [wordLEBytes]

theorem md5HexChars_length (s : String) : (md5HexChars s).length = 32 := by
  unfold md5HexChars
  rw [flatMap_byteHexChars_length, md5Bytes_length]

theorem generateSchemaVersion_length (s : String) :
    (generateSchemaVersion s).length = 8 := by
  show ((md5HexChars s).take 8).length = 8
  rw [List.length_take, md5HexChars_length]
  decide

/-- A successful introspection returns a snapshot whose version is the hash of
its SDL text, whose timestamp is the introspection-time clock, and stores
exactly that snapshot in the client state. -/
theorem introspectSchema_ok_spec (env : GEnv) (st : ClientState)
    (rh : Option Headers) (si : SchemaInfo)
    (hok : (introspectSchema env st rh).1 = .ok si) :
    si.version = generateSchemaVersion si.sdl ∧ si.lastUpdated = env.nowDate ∧
      (introspectSchema env st rh).2.1 = { st with schema := some si } := by
  unfold introspectSchema at hok ⊢
  rcases hx : executeQuery env st (introspectQueryInfo env rh) false with ⟨r, evs⟩
  rw [hx] at hok
  cases r with
  | error e => simp at hok
  | ok qr =>
    cases herr : qr.errors with
    | some es => simp [herr] at hok
    | none =>
      cases hdata : qr.data with
      | none => simp [herr, hdata] at hok
      | some d =>
        cases hb : env.buildSchemaF d with
        | error m => simp [herr, hdata, hb] at hok
        | ok sch =>
          simp [herr, hdata, hb] at hok
          subst hok
          refine ⟨rfl, rfl, ?_⟩
          simp [herr, hdata, hb]

/-- C7: the schema version token is a deterministic fixed-length (8-character)
pure function of the SDL text, and two consecutive successful introspections
seeing the same SDL yield identical versions but each its own `lastUpdated`
timestamp. -/
theorem c7_schema_version :
    (∀ s t : String, s = t → generateSchemaVersion s = generateSchemaVersion t) ∧
    (∀ s : String, (generateSchemaVersion s).length = 8) ∧
    (∀ (env env' : GEnv) (st : ClientState) (rh rh' : Option Headers)
       (si si' : SchemaInfo),
       (introspectSchema env st rh).1 = .ok si →
       (introspectSchema env' (introspectSchema env st rh).2.1 rh').1 = .ok si' →
       si.sdl = si'.sdl →
       si.version = si'.version ∧ si.lastUpdated = env.nowDate ∧
         si'.lastUpdated = env'.nowDate) := by
  refine ⟨fun s t hst => by rw [hst], generateSchemaVersion_length, ?_⟩
  intro env env' st rh rh' si si' h1 h2 hsdl
  obtain ⟨hv1, hd1, _⟩ := introspectSchema_ok_spec env st rh si h1
  obtain ⟨hv2, hd2, _⟩ := introspectSchema_ok_spec env' _ rh' si' h2
  exact ⟨by rw [hv1, hv2, hsdl], hd1, hd2⟩

/-- C7 witness: two successful introspections of the same remote schema (SDL
`sdl7`) at clock times 5 and 9 give snapshots with the same version and their
own timestamps. -/
theorem c7_witness :
    siC7.version = siC7b.version ∧ siC7.lastUpdated = 5 ∧
      siC7b.lastUpdated = 9 :=
  c7_schema_version.2.2 envC7 envC7b stC1 none none siC7 siC7b rfl rfl rfl

/-- Every error escaping `introspectSchema` is a `SchemaError`. -/
theorem wrapIntrospectError_shape (e : ExecError) :
    ∃ m, wrapIntrospectError e = .schemaError m := by
  cases e <;> exact ⟨_, rfl⟩

/-- An error outcome of `introspectSchema` is always a `SchemaError` and
leaves the client state (in particular the cached snapshot) unchanged. -/
theorem introspectSchema_error_spec (env : GEnv) (st : ClientState)
    (rh : Option Headers) (e : ExecError)
    (he : (introspectSchema env st rh).1 = .error e) :
    (∃ m, e = .schemaError m) ∧ (introspectSchema env st rh).2.1 = st := by
  unfold introspectSchema at he ⊢
  rcases hx : executeQuery env st (introspectQueryInfo env rh) false with ⟨r, evs⟩
  rw [hx] at he
  cases r with
  | error e0 =>
    simp at he
    subst he
    exact ⟨wrapIntrospectError_shape e0, by simp⟩
  | ok qr =>
    cases herr : qr.errors with
    | some es =>
      simp [herr] at he
      subst he
      exact ⟨⟨_, rfl⟩, by simp [herr]⟩
    | none =>
      cases hdata : qr.data with
      | none =>
        simp [herr, hdata] at he
        subst he
        exact ⟨⟨_, rfl⟩, by simp [herr, hdata]⟩
      | some d =>
        cases hb : env.buildSchemaF d with
        | error m =>
          simp [herr, hdata, hb] at he
          subst he
          exact ⟨⟨_, rfl⟩, by simp [herr, hdata, hb]⟩
        | ok sch =>
          simp [herr, hdata, hb] at he

/-- `introspectSchema` fails exactly when the underlying execution fails, or
the response carries errors or no data, or the schema cannot be built from the
data. -/
theorem introspectSchema_error_iff (env : GEnv) (st : ClientState)
    (rh : Option Headers) :
    (∃ e, (introspectSchema env st rh).1 = .error e) ↔
      introspectionFailure env st rh := by
  unfold introspectSchema introspectionFailure
  rcases hx : executeQuery env st (introspectQueryInfo env rh) false with ⟨r, evs⟩
  cases r with
  | error e => simp
  | ok qr =>
    cases herr : qr.errors with
    | some es => simp [herr]
    | none =>
      cases hdata : qr.data with
      | none => simp [herr, hdata]
      | some d =>
        cases hb : env.buildSchemaF d with
        | error m => simp [herr, hdata, hb]
        | ok sch => simp [herr, hdata, hb]

/-- C8: `introspectSchema` fails iff the introspection response carries
GraphQL errors or no data, or any other failure happens along the way; every
error it raises is a `SchemaError`; on failure the cached snapshot (indeed the
whole client state) is unchanged; the snapshot is replaced exactly on
success. -/
theorem c8_introspect_error_behavior (env : GEnv) (st : ClientState)
    (rh : Option Headers) :
    ((∃ e, (introspectSchema env st rh).1 = .error e) ↔
       introspectionFailure env st rh) ∧
    (∀ e, (introspectSchema env st rh).1 = .error e → ∃ m, e = .schemaError m) ∧
    (∀ e, (introspectSchema env st rh).1 = .error e →
       (introspectSchema env st rh).2.1 = st) ∧
    (∀ si, (introspectSchema env st rh).1 = .ok si →
       (introspectSchema env st rh).2.1 = { st with schema := some si }) := by
  exact ⟨introspectSchema_error_iff env st rh,
    fun e he => (introspectSchema_error_spec env st rh e he).1,
    fun e he => (introspectSchema_error_spec env st rh e he).2,
    fun si hok => (introspectSchema_ok_spec env st rh si hok).2.2⟩

/-- C8 witness: a fully successful introspection replaces the (empty) cached
snapshot with the newly built one. -/
theorem c8_witness :
    (introspectSchema envC8 stC1 none).2.1 = { stC1 with schema := some siC8 } :=
  (c8_introspect_error_behavior envC8 stC1 none).2.2.2 siC8 rfl

end Synaptra
